import Mathlib

/-!
# BGP community registries (`backend/bgp_communities.go`)

A shallow embedding of the two registries of `bgp_communities.go`:

* `BgpCommunities` (`map[string]string`) with `MakeWellKnownBgpCommunities`
  and `Merge`;
* `NgBgpCommunities` (`map[string]interface{}`) with
  `NgMakeWellKnownBgpCommunities`, `Lookup` and `Set`.

Modelling choices.

* A Go map is an association list read by first match (`mapGet`) and written
  by replace-or-append (`mapSet`).  A flat registry additionally carries the
  proof that its keys are pairwise distinct, because `Merge` ranges over the
  entries and a Go map yields every key once.  `range` yields the entries in
  an unspecified order; the model takes the order of the list, and every
  order is the list order of some representation of the same map
  (`get_mergeLoop_perm`).
* `interface{}` values are the type `Dyn`: a string, a nested
  `NgBgpCommunities`, or any other dynamic value (for which both type
  assertions of `Lookup` fail).
* `strings.Split(s, ":")` is `Split`, defined on the characters of `s`.
* A `for ... range path` loop with `break` is a structural recursion on the
  remaining path that returns the value held when it breaks.
* For the frame property of `Merge`, maps live in a heap of cells addressed by
  references (`MergeRef`), since Go maps are reference values.
-/

namespace AliceLg

/-! ## Go maps -/

/-- The comma-ok read `v, ok := m[k]` of a Go map: `some v` when `ok`. -/
def mapGet {V : Type} : List (String × V) → String → Option V
  | [], _ => none
  | (k', v) :: m, k => if k' = k then some v else mapGet m k

/-- The assignment `m[k] = v` of a Go map. -/
def mapSet {V : Type} : List (String × V) → String → V → List (String × V)
  | [], k, v => [(k, v)]
  | (k', v') :: m, k, v => if k' = k then (k, v) :: m else (k', v') :: mapSet m k v

/-- The keys of a Go map. -/
def mapKeys {V : Type} (m : List (String × V)) : List String := m.map Prod.fst

/-! ## `strings.Split(s, ":")` -/

/-- Splitting a character sequence at every `:`; there is always at least one
segment, and `n` separators give `n + 1` segments. -/
def splitChars : List Char → List (List Char)
  | [] => [[]]
  | c :: cs =>
    if c = ':' then [] :: splitChars cs
    else
      match splitChars cs with
      | seg :: segs => (c :: seg) :: segs
      | [] => [[c]]

/-- The call `strings.Split(s, ":")`. -/
def Split (s : String) : List String := (splitChars s.data).map String.mk

/-! ## The hierarchical registry -/

/-- A value of type `interface{}` as stored in an `NgBgpCommunities`. -/
inductive Dyn where
  | str : String → Dyn
  | ng : List (String × Dyn) → Dyn
  | other : Dyn

/-- The type `NgBgpCommunities` is `map[string]interface{}`. -/
abbrev NgBgpCommunities := List (String × Dyn)

/-- The function `NgMakeWellKnownBgpCommunities`. -/
def NgMakeWellKnownBgpCommunities : NgBgpCommunities :=
  [("65535", Dyn.ng
    [("0", Dyn.str "graceful shutdown"),
     ("1", Dyn.str "accept own"),
     ("2", Dyn.str "route filter translated v4"),
     ("3", Dyn.str "route filter v4"),
     ("4", Dyn.str "route filter translated v6"),
     ("5", Dyn.str "route filter v6"),
     ("6", Dyn.str "llgr stale"),
     ("7", Dyn.str "no llgr"),
     ("8", Dyn.str "accept-own-nexthop"),
     ("666", Dyn.str "blackhole"),
     ("1048321", Dyn.str "no export"),
     ("1048322", Dyn.str "no advertise"),
     ("1048323", Dyn.str "no export subconfed"),
     ("1048324", Dyn.str "nopeer")])]

/-- The loop `for _, key := range path` of `Lookup`, started with the value
`lookup`; the result is the value of `lookup` when the loop is left, by
exhausting `path` or by one of its two `break`s. -/
def lookupLoop : Dyn → List String → Dyn
  | lookup, [] => lookup
  | lookup, key :: path =>
    match lookup with
    | Dyn.ng clookup =>
      match mapGet clookup key with
      | some res => lookupLoop res path
      | none =>
        match mapGet clookup "*" with
        | some res => lookupLoop res path
        | none => lookup
    | _ => lookup

/-- The error value `fmt.Errorf("community not found")`. -/
def errNotFound : String := "community not found"

/-- The last statements of `Lookup`: `label, ok := lookup.(string)` and the
two returns. -/
def lookupResult : Dyn → String × Option String
  | Dyn.str label => (label, none)
  | _ => ("", some errNotFound)

/-- The method `NgBgpCommunities.Lookup`, returning the pair `(string, error)`
with `none` for the `nil` error. -/
def Lookup (self : NgBgpCommunities) (community : String) : String × Option String :=
  let path := Split community
  lookupResult (lookupLoop (Dyn.ng self) path)

/-- The node held after the loop of `Lookup` has consumed all of `path`
without a `break`, if it does so: the level reached by `path`. -/
def reach : Dyn → List String → Option Dyn
  | node, [] => some node
  | node, key :: path =>
    match node with
    | Dyn.ng clookup =>
      match mapGet clookup key with
      | some res => reach res path
      | none =>
        match mapGet clookup "*" with
        | some res => reach res path
        | none => none
    | _ => none

/-! ### The walk as the specification words it -/

/-- State of the specified walk: the node currently held, and whether the
walk has stopped early (the absorbing state). -/
structure WalkState where
  node : Dyn
  stopped : Bool

/-- The next node at an interior registry: the child at the exact segment key
if that key exists, otherwise the child at key `*` if that key exists. -/
def specChild (reg : NgBgpCommunities) (seg : String) : Option Dyn :=
  if (mapGet reg seg).isSome then mapGet reg seg else mapGet reg "*"

/-- One segment of the specified walk. -/
def specStep (st : WalkState) (seg : String) : WalkState :=
  if st.stopped then st
  else
    match st.node with
    | Dyn.ng reg =>
      match specChild reg seg with
      | some next => { node := next, stopped := false }
      | none => { node := st.node, stopped := true }
    | _ => { node := st.node, stopped := true }

/-- The specified walk: split on `:` and process the segments in order,
starting from the root. -/
def specWalk (r : NgBgpCommunities) (c : String) : Dyn :=
  ((Split c).foldl specStep { node := Dyn.ng r, stopped := false }).node

/-- The specified lookup: the final node when it is a label, the error
`community not found` otherwise. -/
def specLookup (r : NgBgpCommunities) (c : String) : Except String String :=
  match specWalk r c with
  | Dyn.str label => Except.ok label
  | _ => Except.error "community not found"

/-- The Go return pair `(string, error)` that carries a specified result. -/
def goReturn : Except String String → String × Option String
  | Except.ok label => (label, none)
  | Except.error e => ("", some e)

/-! ### `Set` -/

/-- What a call of `Set` leaves behind: the contents of the receiver map after
the call, and the values of the `return` statement that was executed. -/
structure SetOutcome where
  registry : NgBgpCommunities
  returned : String × Option String

set_option linter.unusedVariables false in
/-- The method `NgBgpCommunities.Set`.  Its body is, statement for statement,
the body of `Lookup`: the same loop over `path`, then the type assertion
`label, ok := lookup.(string)`, which overwrites the parameter `label`, and
the same two returns.  No statement assigns to an element of a map, so the
receiver holds after the call what it held before. -/
def Set (self : NgBgpCommunities) (community : String) (label : String) : SetOutcome :=
  let path := Split community
  let lookup := lookupLoop (Dyn.ng self) path
  { registry := self, returned := lookupResult lookup }

/-! ## The flat registry -/

/-- The type `BgpCommunities` is `map[string]string`: entries with pairwise
distinct keys. -/
structure BgpCommunities where
  entries : List (String × String)
  nodup : (mapKeys entries).Nodup

namespace BgpCommunities

/-- The map literal `BgpCommunities{}`. -/
def empty : BgpCommunities := { entries := [], nodup := List.nodup_nil }

/-- The comma-ok read `v, ok := m[k]`. -/
def get (m : BgpCommunities) (k : String) : Option String := mapGet m.entries k

/-- The assignment `m[k] = v`. -/
def set (m : BgpCommunities) (k v : String) : BgpCommunities :=
  { entries := mapSet m.entries k v
    nodup := by
      have key : ∀ es : List (String × String), (mapKeys es).Nodup →
          (mapKeys (mapSet es k v)).Nodup ∧
            ∀ x, x ∈ mapKeys (mapSet es k v) → x = k ∨ x ∈ mapKeys es := by
        intro es
        induction es with
        | nil => intro _; simp [mapSet, mapKeys]
        | cons e es ih =>
          obtain ⟨k', v'⟩ := e
          intro hnd
          have hnd' : k' ∉ mapKeys es ∧ (mapKeys es).Nodup := by
            simpa [mapKeys] using hnd
          by_cases hk : k' = k
          · subst hk
            refine ⟨by simpa [mapSet, mapKeys] using hnd, ?_⟩
            intro x hx
            simpa [mapSet, mapKeys] using hx
          · obtain ⟨ihn, ihm⟩ := ih hnd'.2
            refine ⟨?_, ?_⟩
            · simp only [mapSet, if_neg hk, mapKeys, List.map_cons, List.nodup_cons]
              refine ⟨?_, ihn⟩
              intro hmem
              rcases ihm k' hmem with h | h
              · exact hk h
              · exact hnd'.1 h
            · intro x hx
              simp only [mapSet, if_neg hk, mapKeys, List.map_cons, List.mem_cons] at hx
              rcases hx with h | h
              · right; simp [mapKeys, h]
              · rcases ihm x h with h' | h'
                · exact Or.inl h'
                · right
                  simp only [mapKeys, List.map_cons, List.mem_cons]
                  exact Or.inr h'
      exact (key m.entries m.nodup).1 }

end BgpCommunities

/-- The function `MakeWellKnownBgpCommunities`. -/
def MakeWellKnownBgpCommunities : BgpCommunities :=
  { entries :=
      [("65535:0", "graceful shutdown"),
       ("65535:1", "accept own"),
       ("65535:2", "route filter translated v4"),
       ("65535:3", "route filter v4"),
       ("65535:4", "route filter translated v6"),
       ("65535:5", "route filter v6"),
       ("65535:6", "llgr stale"),
       ("65535:7", "no llgr"),
       ("65535:8", "accept-own-nexthop"),
       ("65535:666", "blackhole"),
       ("65535:1048321", "no export"),
       ("65535:1048322", "no advertise"),
       ("65535:1048323", "no export subconfed"),
       ("65535:1048324", "nopeer")]
    nodup := by decide }

/-- The loop `for k, v := range src { merged[k] = v }`, started with
`merged`. -/
def mergeLoop (src : List (String × String)) (merged : BgpCommunities) : BgpCommunities :=
  src.foldl (fun acc kv => acc.set kv.1 kv.2) merged

/-- The method `BgpCommunities.Merge`, on the contents of the maps. -/
def Merge (self communities : BgpCommunities) : BgpCommunities :=
  let merged := BgpCommunities.empty
  let merged := mergeLoop self.entries merged
  let merged := mergeLoop communities.entries merged
  merged

/-! ### `Merge` on references

Go maps are references to mutable cells.  A heap is the list of the cells
allocated so far, a reference is an index into it. -/

/-- The cells allocated so far. -/
abbrev Heap := List BgpCommunities

/-- The contents of the cell at `p`. -/
def Heap.read (h : Heap) (p : Nat) : BgpCommunities := h.getD p BgpCommunities.empty

/-- The statement `m[k] = v` for the map referenced by `p`. -/
def Heap.assign (h : Heap) (p : Nat) (k v : String) : Heap :=
  h.set p ((Heap.read h p).set k v)

/-- The loop `for k, v := range src { merged[k] = v }` on references: the
entries of the cell at `src` on entry to the loop are assigned, one by one, to
the cell at `merged`. -/
def mergeLoopRef (h : Heap) (src merged : Nat) : Heap :=
  (Heap.read h src).entries.foldl (fun hp kv => Heap.assign hp merged kv.1 kv.2) h

/-- The method `BgpCommunities.Merge` on references: `merged` is a newly
allocated cell; the result is the heap after the call and the reference
returned. -/
def MergeRef (h : Heap) (self communities : Nat) : Heap × Nat :=
  let merged := h.length
  let h0 := h ++ [BgpCommunities.empty]
  let h1 := mergeLoopRef h0 self merged
  let h2 := mergeLoopRef h1 communities merged
  (h2, merged)

/-! ## Example registries -/

/-- A registry whose second level has both the exact key `5` and the key `*`;
only the `*` branch knows the third segment `1`. -/
def exactAndWildcard : NgBgpCommunities :=
  [("65000", Dyn.ng
    [("5", Dyn.ng [("0", Dyn.str "five zero")]),
     ("*", Dyn.ng [("1", Dyn.str "any one")])])]

/-- A registry whose second level has only the key `*`, mapped to a label. -/
def wildcardOnly : NgBgpCommunities :=
  [("65000", Dyn.ng [("*", Dyn.str "customer")])]

/-- A flat registry of an operator, overriding one well-known label. -/
def customCommunities : BgpCommunities :=
  { entries := [("65535:666", "discard"), ("64512:100", "customer")]
    nodup := by decide }

/-! ## The well-known tables -/

/-- The table of well-known seed values as the specification lists it: the
value field and the label of each row. -/
def specWellKnownTable : List (Nat × String) :=
  [(0, "graceful shutdown"),
   (1, "accept own"),
   (2, "route filter translated v4"),
   (3, "route filter v4"),
   (4, "route filter translated v6"),
   (5, "route filter v6"),
   (6, "llgr stale"),
   (7, "no llgr"),
   (8, "accept-own-nexthop"),
   (666, "blackhole"),
   (1048321, "no export"),
   (1048322, "no advertise"),
   (1048323, "no export subconfed"),
   (1048324, "nopeer")]

/-- The key of a row of the specified table: the ASN field fixed at `65535`,
then `:`, then the value field in decimal. -/
def specSeedKey (value : Nat) : String := "65535:" ++ toString value

/-- The assigned constants of the header comment of `bgp_communities.go`
(`0xFFFF0000 GRACEFUL_SHUTDOWN` to `0xFFFFFF04 NOPEER`), each with the label
under which the seed tables list that community. -/
def headerConstants : List (Nat × String) :=
  [(0xFFFF0000, "graceful shutdown"),
   (0xFFFF0001, "accept own"),
   (0xFFFF0002, "route filter translated v4"),
   (0xFFFF0003, "route filter v4"),
   (0xFFFF0004, "route filter translated v6"),
   (0xFFFF0005, "route filter v6"),
   (0xFFFF0006, "llgr stale"),
   (0xFFFF0007, "no llgr"),
   (0xFFFF0008, "accept-own-nexthop"),
   (0xFFFF029A, "blackhole"),
   (0xFFFFFF01, "no export"),
   (0xFFFFFF02, "no advertise"),
   (0xFFFFFF03, "no export subconfed"),
   (0xFFFFFF04, "nopeer")]

/-- The number written by a sequence of decimal digits, read from the left
with `acc` the number read so far. -/
def decimalValue : List Char → Nat → Option Nat
  | [], acc => some acc
  | c :: cs, acc =>
    if 48 ≤ c.toNat ∧ c.toNat ≤ 57 then decimalValue cs (10 * acc + (c.toNat - 48))
    else none

/-- The value field of a key `ASN:VALUE`, as a number. -/
def valueField (key : String) : Option Nat :=
  match Split key with
  | [_, value] =>
    match value.data with
    | [] => none
    | c :: cs => decimalValue (c :: cs) 0
  | _ => none

/-- The key under which a flat registry holds the label `label`, if any. -/
def keyOfLabel (m : BgpCommunities) (label : String) : Option String :=
  (m.entries.find? (fun kv => kv.2 = label)).map Prod.fst

/-- Whether the value field of the seeded key of a label is the low 16 bits
of the header constant of that label. -/
def valueIsLow16 (row : Nat × String) : Bool :=
  match keyOfLabel MakeWellKnownBgpCommunities row.2 with
  | some key => valueField key = some (row.1 % 2 ^ 16)
  | none => false

/-! ## Properties of Go maps and of `Split` -/

theorem mapGet_mapSet {V : Type} (m : List (String × V)) (k : String) (v : V) (k' : String) :
    mapGet (mapSet m k v) k' = if k = k' then some v else mapGet m k' := by
  induction m with
  | nil => simp [mapSet, mapGet]
  | cons e m ih =>
    obtain ⟨k₀, v₀⟩ := e
    by_cases h : k₀ = k
    · subst h
      by_cases h' : k₀ = k' <;> simp [mapSet, mapGet, h']
    · simp only [mapSet, if_neg h, mapGet, ih]
      by_cases h' : k₀ = k'
      · subst h'
        simp [Ne.symm h]
      · simp [h']

theorem mapGet_eq_none_of_not_mem {V : Type} (m : List (String × V)) (k : String)
    (h : k ∉ mapKeys m) : mapGet m k = none := by
  induction m with
  | nil => rfl
  | cons e m ih =>
    obtain ⟨k₀, v₀⟩ := e
    simp only [mapKeys, List.map_cons, List.mem_cons, not_or] at h
    simp only [mapGet, if_neg (Ne.symm h.1)]
    exact ih h.2

theorem mem_mapKeys_iff {V : Type} (m : List (String × V)) (k : String) :
    k ∈ mapKeys m ↔ (mapGet m k).isSome = true := by
  induction m with
  | nil => simp [mapKeys, mapGet]
  | cons e m ih =>
    obtain ⟨k₀, v₀⟩ := e
    by_cases h : k₀ = k
    · subst h
      simp [mapKeys, mapGet]
    · have ih' : k ∈ List.map Prod.fst m ↔ (mapGet m k).isSome = true := ih
      simp [mapKeys, mapGet, h, Ne.symm h, ih']

theorem splitChars_ne_nil (cs : List Char) : splitChars cs ≠ [] := by
  cases cs with
  | nil => simp [splitChars]
  | cons c cs =>
    simp only [splitChars]
    split
    · simp
    · split <;> simp

theorem splitChars_append_colon (a b : List Char) :
    splitChars (a ++ ':' :: b) = splitChars a ++ splitChars b := by
  induction a with
  | nil => simp [splitChars]
  | cons c a ih =>
    by_cases hc : c = ':'
    · simp [splitChars, hc, ih]
    · have hstep : splitChars (c :: a ++ ':' :: b) =
          match splitChars (a ++ ':' :: b) with
          | seg :: segs => (c :: seg) :: segs
          | [] => [[c]] := by
        simp [splitChars, hc]
      have hhead : splitChars (c :: a) =
          match splitChars a with
          | seg :: segs => (c :: seg) :: segs
          | [] => [[c]] := by
        simp [splitChars, hc]
      rw [hstep, hhead, ih]
      cases hs : splitChars a with
      | nil => exact absurd hs (splitChars_ne_nil a)
      | cons seg segs => simp

theorem splitChars_of_no_colon (a : List Char) (h : ':' ∉ a) : splitChars a = [a] := by
  induction a with
  | nil => rfl
  | cons c a ih =>
    simp only [List.mem_cons, not_or] at h
    simp [splitChars, Ne.symm h.1, ih h.2]

/-- Splitting `p + ":" + q` gives the segments of `p` followed by those of
`q`. -/
theorem Split_append_colon (p q : String) :
    Split (p ++ ":" ++ q) = Split p ++ Split q := by
  have h : (p ++ ":" ++ q).data = p.data ++ ':' :: q.data := by
    simp [String.data_append]
  simp [Split, h, splitChars_append_colon]

/-- A string without `:` is its own single segment. -/
theorem Split_of_no_colon (s : String) (h : ':' ∉ s.data) : Split s = [s] := by
  simp [Split, splitChars_of_no_colon s.data h]

/-! ## Properties of `Lookup` -/

theorem specStep_stopped (n : Dyn) (path : List String) :
    path.foldl specStep { node := n, stopped := true } = { node := n, stopped := true } := by
  induction path with
  | nil => rfl
  | cons seg path ih => simpa [List.foldl_cons, specStep] using ih

theorem specStep_foldl_node (path : List String) :
    ∀ node : Dyn,
      (path.foldl specStep { node := node, stopped := false }).node = lookupLoop node path := by
  induction path with
  | nil => intro node; rfl
  | cons seg path ih =>
    intro node
    cases node with
    | str l => simp [List.foldl_cons, specStep, lookupLoop, specStep_stopped]
    | other => simp [List.foldl_cons, specStep, lookupLoop, specStep_stopped]
    | ng reg =>
      simp only [List.foldl_cons, specStep, lookupLoop, specChild]
      cases hk : mapGet reg seg with
      | some res => simpa using ih res
      | none =>
        cases hw : mapGet reg "*" with
        | some res => simpa using ih res
        | none => simp [specStep_stopped]

theorem lookupLoop_of_reach (pre : List String) :
    ∀ (node node' : Dyn) (rest : List String), reach node pre = some node' →
      lookupLoop node (pre ++ rest) = lookupLoop node' rest := by
  induction pre with
  | nil =>
    intro node node' rest h
    simp only [reach, Option.some.injEq] at h
    simp [h]
  | cons seg pre ih =>
    intro node node' rest h
    cases node with
    | str l => simp [reach] at h
    | other => simp [reach] at h
    | ng reg =>
      simp only [reach] at h
      simp only [List.cons_append, lookupLoop]
      cases hk : mapGet reg seg with
      | some res =>
        rw [hk] at h
        exact ih res node' rest h
      | none =>
        rw [hk] at h
        cases hw : mapGet reg "*" with
        | some res =>
          rw [hw] at h
          exact ih res node' rest h
        | none => rw [hw] at h; simp at h

/-- Claim C1: for every hierarchical registry and every community string,
`Lookup` returns what the specified walk prescribes: the segments of the
string are processed in order from the root, taking the exact child, else the
`*` child, else stopping with the node held; the result is the final node when
it is a label and the error `community not found` otherwise. -/
theorem Lookup_eq_specLookup (r : NgBgpCommunities) (c : String) :
    Lookup r c = goReturn (specLookup r c) := by
  simp only [Lookup, specLookup, specWalk, specStep_foldl_node]
  cases lookupLoop (Dyn.ng r) (Split c) <;> rfl

/-- Claim C2: exact-match precedence without backtracking.  When the level
reached by the segments `pre` has the exact key `s` mapped to `n`, the lookup
of a string with segments `pre ++ s :: rest` is the walk continued from `n`
over `rest`, whatever the level holds at `*`; so it is `community not found`
as soon as `rest` does not resolve to a label under `n`. -/
theorem Lookup_exact_precedence (r : NgBgpCommunities) (c : String)
    (pre : List String) (s : String) (rest : List String)
    (m : NgBgpCommunities) (n : Dyn)
    (hsplit : Split c = pre ++ s :: rest)
    (hreach : reach (Dyn.ng r) pre = some (Dyn.ng m))
    (hkey : mapGet m s = some n) :
    Lookup r c = lookupResult (lookupLoop n rest) ∧
      ((∀ l : String, lookupLoop n rest ≠ Dyn.str l) →
        Lookup r c = ("", some errNotFound)) := by
  have hwalk : lookupLoop (Dyn.ng r) (Split c) = lookupLoop n rest := by
    rw [hsplit, lookupLoop_of_reach pre _ _ _ hreach]
    simp [lookupLoop, hkey]
  have hres : Lookup r c = lookupResult (lookupLoop n rest) := by
    simp only [Lookup, hwalk]
  refine ⟨hres, ?_⟩
  intro hno
  rw [hres]
  cases hn : lookupLoop n rest with
  | str l => exact absurd hn (hno l)
  | ng reg => rfl
  | other => rfl

/-- Claim C2 at `65000:5:1` in `exactAndWildcard`: the exact branch `5` is
taken and fails on `1`, although the `*` branch resolves `1` to a label. -/
theorem Lookup_exact_precedence_witness :
    Split "65000:5:1" = ["65000"] ++ "5" :: ["1"] ∧
      reach (Dyn.ng exactAndWildcard) ["65000"] =
        some (Dyn.ng [("5", Dyn.ng [("0", Dyn.str "five zero")]),
                      ("*", Dyn.ng [("1", Dyn.str "any one")])]) ∧
      lookupLoop (Dyn.ng [("1", Dyn.str "any one")]) ["1"] = Dyn.str "any one" ∧
      Lookup exactAndWildcard "65000:5:1" = ("", some errNotFound) :=
  ⟨by decide, rfl, rfl,
    (Lookup_exact_precedence exactAndWildcard "65000:5:1" ["65000"] "5" ["1"]
      [("5", Dyn.ng [("0", Dyn.str "five zero")]), ("*", Dyn.ng [("1", Dyn.str "any one")])]
      (Dyn.ng [("0", Dyn.str "five zero")]) (by decide) rfl rfl).2
      (by intro l h; exact Dyn.noConfusion h)⟩

/-- Claim C3: wildcard fallback.  When the level reached by the segments
`pre` has the key `*` mapped to `w` and no key equal to the segment `s`, the
lookup of a string with segments `pre ++ s :: rest` is the walk continued from
`w` over `rest`; when `w` is a label the lookup returns it. -/
theorem Lookup_wildcard_fallback (r : NgBgpCommunities) (c : String)
    (pre : List String) (s : String) (rest : List String)
    (m : NgBgpCommunities) (w : Dyn)
    (hsplit : Split c = pre ++ s :: rest)
    (hreach : reach (Dyn.ng r) pre = some (Dyn.ng m))
    (hkey : mapGet m s = none)
    (hwild : mapGet m "*" = some w) :
    Lookup r c = lookupResult (lookupLoop w rest) ∧
      (∀ l : String, w = Dyn.str l → Lookup r c = (l, none)) := by
  have hwalk : lookupLoop (Dyn.ng r) (Split c) = lookupLoop w rest := by
    rw [hsplit, lookupLoop_of_reach pre _ _ _ hreach]
    simp [lookupLoop, hkey, hwild]
  have hres : Lookup r c = lookupResult (lookupLoop w rest) := by
    simp only [Lookup, hwalk]
  refine ⟨hres, ?_⟩
  intro l hl
  rw [hres, hl]
  cases rest <;> rfl

/-- Claim C3 at `65000:4711` in `wildcardOnly`. -/
theorem Lookup_wildcard_fallback_witness :
    Split "65000:4711" = ["65000"] ++ "4711" :: [] ∧
      reach (Dyn.ng wildcardOnly) ["65000"] = some (Dyn.ng [("*", Dyn.str "customer")]) ∧
      mapGet [("*", Dyn.str "customer")] "4711" = none ∧
      Lookup wildcardOnly "65000:4711" = ("customer", none) :=
  ⟨by decide, rfl, rfl,
    (Lookup_wildcard_fallback wildcardOnly "65000:4711" ["65000"] "4711" []
      [("*", Dyn.str "customer")] (Dyn.str "customer") (by decide) rfl rfl rfl).2
      "customer" rfl⟩

/-- Claim C10: `Lookup` returns the empty label and the error
`community not found` whenever the walk ends holding an interior registry: in
particular when a segment has neither an exact key nor a `*` key at the level
reached, and when all segments are consumed and the node reached is still an
interior registry. -/
theorem Lookup_notFound_at_registry (r : NgBgpCommunities) (c : String) :
    (∀ m : NgBgpCommunities, lookupLoop (Dyn.ng r) (Split c) = Dyn.ng m →
        Lookup r c = ("", some errNotFound)) ∧
      (∀ (pre : List String) (s : String) (rest : List String) (m : NgBgpCommunities),
        Split c = pre ++ s :: rest → reach (Dyn.ng r) pre = some (Dyn.ng m) →
          mapGet m s = none → mapGet m "*" = none →
            Lookup r c = ("", some errNotFound)) ∧
      (∀ m : NgBgpCommunities, reach (Dyn.ng r) (Split c) = some (Dyn.ng m) →
        Lookup r c = ("", some errNotFound)) := by
  have hend : ∀ m : NgBgpCommunities, lookupLoop (Dyn.ng r) (Split c) = Dyn.ng m →
      Lookup r c = ("", some errNotFound) := by
    intro m hm
    simp only [Lookup, hm]
    rfl
  refine ⟨hend, ?_, ?_⟩
  · intro pre s rest m hsplit hreach hkey hwild
    apply hend m
    rw [hsplit, lookupLoop_of_reach pre _ _ _ hreach]
    simp [lookupLoop, hkey, hwild]
  · intro m hreach
    apply hend m
    have h := lookupLoop_of_reach (Split c) _ _ [] hreach
    simpa [lookupLoop] using h

/-- Claim C10 on the seeded registry: `65535:9999` misses a key at the second
level, and `65535` ends at the interior registry of the second level. -/
theorem Lookup_notFound_at_registry_witness :
    Lookup NgMakeWellKnownBgpCommunities "65535:9999" = ("", some errNotFound) ∧
      Lookup NgMakeWellKnownBgpCommunities "65535" = ("", some errNotFound) :=
  ⟨(Lookup_notFound_at_registry NgMakeWellKnownBgpCommunities "65535:9999").2.1
      ["65535"] "9999" [] _ (by decide) rfl rfl rfl,
    (Lookup_notFound_at_registry NgMakeWellKnownBgpCommunities "65535").2.2 _ rfl⟩

/-! ## `Set` followed by `Lookup` -/

/-- Claim C4 at the seeded registry, path `64512:100` and label `customer`:
after `Set`, `Lookup` of the same path still returns the empty label and
`community not found`, not the label that was set. -/
theorem Set_then_Lookup_notFound :
    Lookup (Set NgMakeWellKnownBgpCommunities "64512:100" "customer").registry "64512:100" =
      ("", some errNotFound) := by
  decide

/-- Claim C5 at the seeded registry and path `65535:666`: after `Set` with
`discard` and then `Set` with `drop`, `Lookup` returns the seeded label
`blackhole`, not `drop`. -/
theorem Set_twice_then_Lookup_old_label :
    Lookup (Set (Set NgMakeWellKnownBgpCommunities "65535:666" "discard").registry
        "65535:666" "drop").registry "65535:666" = ("blackhole", none) := by
  decide

/-! ## Properties of `Merge` -/

theorem BgpCommunities.get_set (m : BgpCommunities) (k v k' : String) :
    (m.set k v).get k' = if k = k' then some v else m.get k' :=
  mapGet_mapSet m.entries k v k'

theorem get_mergeLoop (src : List (String × String)) :
    ∀ (acc : BgpCommunities) (k : String), (mapKeys src).Nodup →
      (mergeLoop src acc).get k = (mapGet src k).orElse (fun _ => acc.get k) := by
  induction src with
  | nil => intro acc k _; rfl
  | cons e src ih =>
    obtain ⟨k₀, v₀⟩ := e
    intro acc k hnd
    have hnd' : k₀ ∉ mapKeys src ∧ (mapKeys src).Nodup := by
      simpa [mapKeys] using hnd
    have hstep : mergeLoop ((k₀, v₀) :: src) acc = mergeLoop src (acc.set k₀ v₀) := rfl
    rw [hstep, ih (acc.set k₀ v₀) k hnd'.2, BgpCommunities.get_set]
    by_cases h : k₀ = k
    · subst h
      simp [mapGet, mapGet_eq_none_of_not_mem src k₀ hnd'.1]
    · simp [mapGet, h]

theorem mapGet_perm {V : Type} {m m' : List (String × V)} (hp : m.Perm m')
    (hnd : (mapKeys m).Nodup) (k : String) : mapGet m k = mapGet m' k := by
  induction hp with
  | nil => rfl
  | cons e _ ih =>
    obtain ⟨k₀, v₀⟩ := e
    have hnd' : (mapKeys _).Nodup := (List.nodup_cons.mp hnd).2
    simp only [mapGet, ih hnd']
  | swap e e' l =>
    obtain ⟨k₀, v₀⟩ := e
    obtain ⟨k₁, v₁⟩ := e'
    have hne : k₁ ≠ k₀ := by
      intro heq
      simp [mapKeys, heq] at hnd
    by_cases h0 : k₀ = k
    · subst h0
      simp [mapGet, hne]
    · simp [mapGet, h0]
  | trans h₁ _ ih₁ ih₂ =>
    have hnd' : (mapKeys _).Nodup := ((h₁.map Prod.fst).nodup_iff).mp hnd
    rw [ih₁ hnd, ih₂ hnd']

/-- The order in which `range` yields the entries does not matter: looping
over any rearrangement of the entries gives a map with the same reads. -/
theorem get_mergeLoop_perm {src src' : List (String × String)} (hp : src.Perm src')
    (hnd : (mapKeys src).Nodup) (acc : BgpCommunities) (k : String) :
    (mergeLoop src' acc).get k = (mergeLoop src acc).get k := by
  have hnd' : (mapKeys src').Nodup := ((hp.map Prod.fst).nodup_iff).mp hnd
  rw [get_mergeLoop src' acc k hnd', get_mergeLoop src acc k hnd, mapGet_perm hp hnd k]

/-- The merged registry reads as the right-hand registry where that has the
key, and as the left-hand registry elsewhere. -/
theorem get_Merge (a b : BgpCommunities) (k : String) :
    (Merge a b).get k = (b.get k).orElse (fun _ => a.get k) := by
  simp only [Merge]
  rw [get_mergeLoop b.entries _ k b.nodup, get_mergeLoop a.entries _ k a.nodup]
  cases hb : mapGet b.entries k with
  | some v => simp [BgpCommunities.get, hb]
  | none =>
    cases ha : mapGet a.entries k <;>
      simp [BgpCommunities.get, BgpCommunities.empty, mapGet, hb, ha]

/-- Claim C6: right-hand precedence.  Every key of `b` is mapped by
`a.Merge(b)` to the value `b` has for it, whatever `a` holds there. -/
theorem Merge_right_precedence (a b : BgpCommunities) (k v : String)
    (hb : b.get k = some v) : (Merge a b).get k = some v := by
  rw [get_Merge, hb]
  rfl

/-- Claim C6 at a key that both registries hold with different labels. -/
theorem Merge_right_precedence_witness :
    customCommunities.get "65535:666" = some "discard" ∧
      MakeWellKnownBgpCommunities.get "65535:666" = some "blackhole" ∧
      (Merge MakeWellKnownBgpCommunities customCommunities).get "65535:666" = some "discard" :=
  ⟨by decide, by decide,
    Merge_right_precedence MakeWellKnownBgpCommunities customCommunities "65535:666" "discard"
      (by decide)⟩

/-- Claim C7: left retention.  A key of `a` that is absent from `b` is mapped
by `a.Merge(b)` to the value `a` has for it. -/
theorem Merge_left_retention (a b : BgpCommunities) (k v : String)
    (ha : a.get k = some v) (hb : b.get k = none) : (Merge a b).get k = some v := by
  rw [get_Merge, hb, ha]
  rfl

/-- Claim C7 at a well-known key that the custom registry does not hold. -/
theorem Merge_left_retention_witness :
    MakeWellKnownBgpCommunities.get "65535:0" = some "graceful shutdown" ∧
      customCommunities.get "65535:0" = none ∧
      (Merge MakeWellKnownBgpCommunities customCommunities).get "65535:0" =
        some "graceful shutdown" :=
  ⟨by decide, by decide,
    Merge_left_retention MakeWellKnownBgpCommunities customCommunities "65535:0"
      "graceful shutdown" (by decide) (by decide)⟩

/-- Claim C9: the keys of `a.Merge(b)` are exactly the keys of `a` and the
keys of `b`. -/
theorem Merge_keys (a b : BgpCommunities) (k : String) :
    k ∈ mapKeys (Merge a b).entries ↔ k ∈ mapKeys a.entries ∨ k ∈ mapKeys b.entries := by
  rw [mem_mapKeys_iff, mem_mapKeys_iff, mem_mapKeys_iff]
  have h := get_Merge a b k
  simp only [BgpCommunities.get] at h
  rw [h]
  cases hb : mapGet b.entries k with
  | some v => simp
  | none => simp

/-! ### `Merge` on references -/

theorem Heap.read_assign_ne (h : Heap) (p : Nat) (k v : String) (q : Nat) (hq : q ≠ p) :
    Heap.read (Heap.assign h p k v) q = Heap.read h q := by
  simp [Heap.read, Heap.assign, List.getD_eq_getElem?_getD, List.getElem?_set_ne (Ne.symm hq)]

theorem Heap.read_assign_self (h : Heap) (p : Nat) (k v : String) (hp : p < h.length) :
    Heap.read (Heap.assign h p k v) p = (Heap.read h p).set k v := by
  simp [Heap.read, Heap.assign, List.getD_eq_getElem?_getD, List.getElem?_set, hp]

theorem Heap.length_assign (h : Heap) (p : Nat) (k v : String) :
    (Heap.assign h p k v).length = h.length := by
  simp [Heap.assign]

theorem read_foldl_assign_ne (merged q : Nat) (hq : q ≠ merged) (es : List (String × String)) :
    ∀ h : Heap,
      Heap.read (es.foldl (fun hp kv => Heap.assign hp merged kv.1 kv.2) h) q = Heap.read h q := by
  induction es with
  | nil => intro h; rfl
  | cons e es ih =>
    intro h
    rw [List.foldl_cons, ih, Heap.read_assign_ne h merged e.1 e.2 q hq]

theorem read_foldl_assign_self (merged : Nat) (es : List (String × String)) :
    ∀ h : Heap, merged < h.length →
      Heap.read (es.foldl (fun hp kv => Heap.assign hp merged kv.1 kv.2) h) merged =
        mergeLoop es (Heap.read h merged) := by
  induction es with
  | nil => intro h _; rfl
  | cons e es ih =>
    intro h hm
    rw [List.foldl_cons, ih _ (by rw [Heap.length_assign]; exact hm),
      Heap.read_assign_self h merged e.1 e.2 hm]
    rfl

theorem length_foldl_assign (merged : Nat) (es : List (String × String)) :
    ∀ h : Heap,
      (es.foldl (fun hp kv => Heap.assign hp merged kv.1 kv.2) h).length = h.length := by
  induction es with
  | nil => intro h; rfl
  | cons e es ih =>
    intro h
    rw [List.foldl_cons, ih, Heap.length_assign]

theorem Heap.read_alloc_ne (h : Heap) (q : Nat) (hq : q ≠ h.length) :
    Heap.read (h ++ [BgpCommunities.empty]) q = Heap.read h q := by
  simp only [Heap.read, List.getD_eq_getElem?_getD]
  rcases Nat.lt_or_gt_of_ne hq with hlt | hgt
  · rw [List.getElem?_append_left hlt]
  · have h1 : (h ++ [BgpCommunities.empty])[q]? = none := by
      apply List.getElem?_eq_none
      simp only [List.length_append, List.length_singleton]
      omega
    have h2 : h[q]? = none := List.getElem?_eq_none (by omega)
    rw [h1, h2]

theorem Heap.read_alloc_self (h : Heap) :
    Heap.read (h ++ [BgpCommunities.empty]) h.length = BgpCommunities.empty := by
  simp [Heap.read, List.getD_eq_getElem?_getD]

/-- Every cell other than the newly allocated one holds after `Merge` what it
held before. -/
theorem MergeRef_read_ne (h : Heap) (self communities q : Nat) (hq : q ≠ h.length) :
    Heap.read (MergeRef h self communities).1 q = Heap.read h q := by
  simp only [MergeRef, mergeLoopRef]
  rw [read_foldl_assign_ne h.length q hq, read_foldl_assign_ne h.length q hq,
    Heap.read_alloc_ne h q hq]

/-- The cell returned by `Merge` on references holds `Merge` of the contents
of its two arguments. -/
theorem MergeRef_result (h : Heap) (self communities : Nat)
    (hs : self < h.length) (hc : communities < h.length) :
    Heap.read (MergeRef h self communities).1 (MergeRef h self communities).2 =
      Merge (Heap.read h self) (Heap.read h communities) := by
  have hlen : h.length < (h ++ [BgpCommunities.empty]).length := by simp
  simp only [MergeRef, mergeLoopRef]
  rw [read_foldl_assign_self h.length _ _ (by rw [length_foldl_assign]; exact hlen),
    read_foldl_assign_self h.length _ _ hlen,
    read_foldl_assign_ne h.length communities (Nat.ne_of_lt hc),
    Heap.read_alloc_ne h communities (Nat.ne_of_lt hc),
    Heap.read_alloc_ne h self (Nat.ne_of_lt hs), Heap.read_alloc_self]
  rfl

/-- Claim C8: `Merge` does not mutate its inputs.  The call allocates a new
cell for the result and writes to no other: the maps referenced by the
receiver and by the argument, and every other map allocated before the call,
hold afterwards what they held before, also when receiver and argument are
the same map. -/
theorem MergeRef_frame (h : Heap) (self communities : Nat)
    (hs : self < h.length) (hc : communities < h.length) :
    Heap.read (MergeRef h self communities).1 self = Heap.read h self ∧
      Heap.read (MergeRef h self communities).1 communities = Heap.read h communities ∧
      (MergeRef h self communities).2 = h.length ∧
      ∀ q : Nat, q ≠ (MergeRef h self communities).2 →
        Heap.read (MergeRef h self communities).1 q = Heap.read h q :=
  ⟨MergeRef_read_ne h self communities self (Nat.ne_of_lt hs),
    MergeRef_read_ne h self communities communities (Nat.ne_of_lt hc),
    rfl,
    fun q hq => MergeRef_read_ne h self communities q hq⟩

/-- Claim C8 for a heap of one map that is merged with itself. -/
theorem MergeRef_frame_witness :
    0 < [MakeWellKnownBgpCommunities].length ∧
      Heap.read (MergeRef [MakeWellKnownBgpCommunities] 0 0).1 0 =
        Heap.read [MakeWellKnownBgpCommunities] 0 ∧
      (MergeRef [MakeWellKnownBgpCommunities] 0 0).2 = 1 :=
  ⟨by decide,
    (MergeRef_frame [MakeWellKnownBgpCommunities] 0 0 (by decide) (by decide)).1,
    (MergeRef_frame [MakeWellKnownBgpCommunities] 0 0 (by decide) (by decide)).2.2.1⟩

/-! ## Paths that go on after a label -/

theorem lookupLoop_str (l : String) (path : List String) :
    lookupLoop (Dyn.str l) path = Dyn.str l := by
  cases path <;> rfl

theorem lookupLoop_append_of_str (path : List String) :
    ∀ (node : Dyn) (l : String) (more : List String), lookupLoop node path = Dyn.str l →
      lookupLoop node (path ++ more) = Dyn.str l := by
  induction path with
  | nil =>
    intro node l more h
    simp only [lookupLoop] at h
    rw [h, List.nil_append, lookupLoop_str]
  | cons key path ih =>
    intro node l more h
    cases node with
    | str l' =>
      rw [lookupLoop_str] at h
      rw [h, lookupLoop_str]
    | other => simp [lookupLoop] at h
    | ng reg =>
      simp only [lookupLoop] at h
      simp only [List.cons_append, lookupLoop]
      cases hk : mapGet reg key with
      | some res =>
        rw [hk] at h
        exact ih res l more h
      | none =>
        rw [hk] at h
        cases hw : mapGet reg "*" with
        | some res =>
          rw [hw] at h
          exact ih res l more h
        | none => rw [hw] at h; simp at h

theorem lookupLoop_of_Lookup {r : NgBgpCommunities} {c l : String}
    (h : Lookup r c = (l, none)) : lookupLoop (Dyn.ng r) (Split c) = Dyn.str l := by
  simp only [Lookup] at h
  cases hn : lookupLoop (Dyn.ng r) (Split c) with
  | str l' =>
    rw [hn] at h
    simp only [lookupResult, Prod.mk.injEq, and_true] at h
    rw [h]
  | ng reg => rw [hn] at h; simp [lookupResult] at h
  | other => rw [hn] at h; simp [lookupResult] at h

/-- Claim C11, as the code has it: when the walk reaches a label while
segments still remain, the loop is left at the failed type assertion with the
label held, and `Lookup` returns that label with no error. -/
theorem Lookup_label_before_end (r : NgBgpCommunities) (c : String)
    (pre : List String) (s : String) (rest : List String) (l : String)
    (hsplit : Split c = pre ++ s :: rest)
    (hreach : reach (Dyn.ng r) pre = some (Dyn.str l)) :
    Lookup r c = (l, none) := by
  simp only [Lookup]
  rw [hsplit, lookupLoop_of_reach pre _ _ _ hreach, lookupLoop_str]
  rfl

/-- Claim C11 as amended, at `65535:0:1` in the seeded registry. -/
theorem Lookup_label_before_end_witness :
    Split "65535:0:1" = ["65535", "0"] ++ "1" :: [] ∧
      reach (Dyn.ng NgMakeWellKnownBgpCommunities) ["65535", "0"] =
        some (Dyn.str "graceful shutdown") ∧
      Lookup NgMakeWellKnownBgpCommunities "65535:0:1" = ("graceful shutdown", none) :=
  ⟨by decide, rfl,
    Lookup_label_before_end NgMakeWellKnownBgpCommunities "65535:0:1" ["65535", "0"] "1" []
      "graceful shutdown" (by decide) rfl⟩

/-- Claim C11 as stated fails at `65535:0:1` in the seeded registry: the walk
reaches the label of `65535:0` with the segment `1` remaining, and `Lookup`
does not return `community not found`. -/
theorem Lookup_long_path_counterexample :
    Split "65535:0:1" = ["65535", "0", "1"] ∧
      reach (Dyn.ng NgMakeWellKnownBgpCommunities) ["65535", "0"] =
        some (Dyn.str "graceful shutdown") ∧
      Lookup NgMakeWellKnownBgpCommunities "65535:0:1" ≠ ("", some errNotFound) :=
  ⟨by decide, rfl, by decide⟩

/-- Claim C18: segments after a label has been reached are ignored.  When
`Lookup(p)` returns the label `l` with no error, so does
`Lookup(p + ":" + s)`, for every string `s`. -/
theorem Lookup_ignores_trailing_segment (r : NgBgpCommunities) (p l s : String)
    (h : Lookup r p = (l, none)) : Lookup r (p ++ ":" ++ s) = (l, none) := by
  have hloop := lookupLoop_of_Lookup h
  simp only [Lookup]
  rw [Split_append_colon, lookupLoop_append_of_str (Split p) _ l (Split s) hloop]
  rfl

/-- Claim C18 at `65535:666` in the seeded registry, extended by `7:8`. -/
theorem Lookup_ignores_trailing_segment_witness :
    Lookup NgMakeWellKnownBgpCommunities "65535:666" = ("blackhole", none) ∧
      Lookup NgMakeWellKnownBgpCommunities ("65535:666" ++ ":" ++ "7:8") =
        ("blackhole", none) :=
  ⟨by decide,
    Lookup_ignores_trailing_segment NgMakeWellKnownBgpCommunities "65535:666" "blackhole"
      "7:8" (by decide)⟩

/-! ## The seeded registries -/

theorem mem_of_mapGet {V : Type} (m : List (String × V)) (k : String) (v : V)
    (h : mapGet m k = some v) : (k, v) ∈ m := by
  induction m with
  | nil => simp [mapGet] at h
  | cons e m ih =>
    obtain ⟨k₀, v₀⟩ := e
    by_cases hk : k₀ = k
    · subst hk
      simp only [mapGet, if_true, Option.some.injEq] at h
      simp [h]
    · simp only [mapGet, if_neg hk] at h
      exact List.mem_cons_of_mem _ (ih h)

theorem mapGet_of_mem {V : Type} (m : List (String × V)) (k : String) (v : V)
    (hnd : (mapKeys m).Nodup) (h : (k, v) ∈ m) : mapGet m k = some v := by
  induction m with
  | nil => simp at h
  | cons e m ih =>
    obtain ⟨k₀, v₀⟩ := e
    have hnd' : k₀ ∉ mapKeys m ∧ (mapKeys m).Nodup := by
      simpa [mapKeys] using hnd
    rcases List.mem_cons.mp h with heq | hmem
    · simp only [Prod.mk.injEq] at heq
      simp [mapGet, heq.1, heq.2]
    · have hne : k₀ ≠ k := by
        intro hk
        apply hnd'.1
        rw [hk]
        exact List.mem_map_of_mem Prod.fst hmem
      simp only [mapGet, if_neg hne]
      exact ih hnd'.2 hmem

/-- Claim C12: the seeded hierarchical registry holds the table of the seeded
flat registry.  For every key with its label in
`MakeWellKnownBgpCommunities()`, `Lookup` of that key in
`NgMakeWellKnownBgpCommunities()` returns the label with no error; so for
`65535:0`, `65535:666` and `65535:1048324`. -/
theorem seeded_Lookup_agrees_with_flat :
    (∀ k l : String, MakeWellKnownBgpCommunities.get k = some l →
        Lookup NgMakeWellKnownBgpCommunities k = (l, none)) ∧
      Lookup NgMakeWellKnownBgpCommunities "65535:0" = ("graceful shutdown", none) ∧
      Lookup NgMakeWellKnownBgpCommunities "65535:666" = ("blackhole", none) ∧
      Lookup NgMakeWellKnownBgpCommunities "65535:1048324" = ("nopeer", none) := by
  refine ⟨?_, by decide, by decide, by decide⟩
  intro k l h
  have hmem := mem_of_mapGet _ k l h
  simp only [MakeWellKnownBgpCommunities, List.mem_cons, Prod.mk.injEq, List.mem_nil_iff,
    or_false] at hmem
  rcases hmem with ⟨rfl, rfl⟩ | ⟨rfl, rfl⟩ | ⟨rfl, rfl⟩ | ⟨rfl, rfl⟩ | ⟨rfl, rfl⟩ |
    ⟨rfl, rfl⟩ | ⟨rfl, rfl⟩ | ⟨rfl, rfl⟩ | ⟨rfl, rfl⟩ | ⟨rfl, rfl⟩ | ⟨rfl, rfl⟩ |
    ⟨rfl, rfl⟩ | ⟨rfl, rfl⟩ | ⟨rfl, rfl⟩ <;> decide

/-- Claim C12 at the key `65535:1048321`. -/
theorem seeded_Lookup_agrees_with_flat_witness :
    MakeWellKnownBgpCommunities.get "65535:1048321" = some "no export" ∧
      Lookup NgMakeWellKnownBgpCommunities "65535:1048321" = ("no export", none) :=
  ⟨by decide, seeded_Lookup_agrees_with_flat.1 "65535:1048321" "no export" (by decide)⟩

/-- Claim C13: the seeded hierarchical registry resolves nothing outside its
table.  Its top level has the single key `65535`, neither level has the key
`*`, and `Lookup` returns `community not found` for every string whose first
segment is not `65535`, or that has no second segment, or whose second segment
is not one of the 14 seeded values; so for `65535:9999` and `1:1`. -/
theorem seeded_Lookup_outside_table :
    mapKeys NgMakeWellKnownBgpCommunities = ["65535"] ∧
      mapGet NgMakeWellKnownBgpCommunities "*" = none ∧
      (∀ m : NgBgpCommunities,
        mapGet NgMakeWellKnownBgpCommunities "65535" = some (Dyn.ng m) → mapGet m "*" = none) ∧
      (∀ (c s : String) (rest : List String), Split c = s :: rest → s ≠ "65535" →
        Lookup NgMakeWellKnownBgpCommunities c = ("", some errNotFound)) ∧
      (∀ c : String, Split c = ["65535"] →
        Lookup NgMakeWellKnownBgpCommunities c = ("", some errNotFound)) ∧
      (∀ (c v : String) (rest : List String), Split c = "65535" :: v :: rest →
        v ∉ ["0", "1", "2", "3", "4", "5", "6", "7", "8", "666",
          "1048321", "1048322", "1048323", "1048324"] →
        Lookup NgMakeWellKnownBgpCommunities c = ("", some errNotFound)) ∧
      Lookup NgMakeWellKnownBgpCommunities "65535:9999" = ("", some errNotFound) ∧
      Lookup NgMakeWellKnownBgpCommunities "1:1" = ("", some errNotFound) := by
  refine ⟨rfl, rfl, ?_, ?_, ?_, ?_, by decide, by decide⟩
  · intro m hm
    simp only [NgMakeWellKnownBgpCommunities, mapGet, if_true, Option.some.injEq,
      Dyn.ng.injEq] at hm
    rw [← hm]
    rfl
  · intro c s rest hsplit hs
    have hk : mapGet NgMakeWellKnownBgpCommunities s = none := by
      simp [NgMakeWellKnownBgpCommunities, mapGet, Ne.symm hs]
    have hw : mapGet NgMakeWellKnownBgpCommunities "*" = none := rfl
    simp only [Lookup, hsplit, lookupLoop, hk, hw]
    rfl
  · intro c hsplit
    simp only [Lookup, hsplit]
    rfl
  · intro c v rest hsplit hv
    obtain ⟨inner, hreach, hkeys, hwild⟩ : ∃ inner : NgBgpCommunities,
        reach (Dyn.ng NgMakeWellKnownBgpCommunities) ["65535"] = some (Dyn.ng inner) ∧
          mapKeys inner = ["0", "1", "2", "3", "4", "5", "6", "7", "8", "666",
            "1048321", "1048322", "1048323", "1048324"] ∧
          mapGet inner "*" = none := ⟨_, rfl, rfl, rfl⟩
    have hk : mapGet inner v = none := by
      apply mapGet_eq_none_of_not_mem
      rw [hkeys]
      exact hv
    have hwalk := lookupLoop_of_reach ["65535"] _ _ (v :: rest) hreach
    simp only [List.singleton_append] at hwalk
    simp only [Lookup, hsplit, hwalk, lookupLoop, hk, hwild]
    rfl

/-- Claim C13 at `64512:100` (first segment not `65535`) and at `65535:9`
(second segment not seeded). -/
theorem seeded_Lookup_outside_table_witness :
    Lookup NgMakeWellKnownBgpCommunities "64512:100" = ("", some errNotFound) ∧
      Lookup NgMakeWellKnownBgpCommunities "65535:9" = ("", some errNotFound) :=
  ⟨seeded_Lookup_outside_table.2.2.2.1 "64512:100" "64512" ["100"] (by decide) (by decide),
    seeded_Lookup_outside_table.2.2.2.2.2.1 "65535:9" "9" [] (by decide) (by decide)⟩

/-- Claim C14: the flat seed is exactly the specified table.
`MakeWellKnownBgpCommunities()` has 14 entries; it maps a key to a label
exactly when the table has a row with that label whose value gives the key
`65535:<value>`; and it maps `65535:1048321` to `no export`. -/
theorem flat_seed_is_spec_table :
    MakeWellKnownBgpCommunities.entries.length = 14 ∧
      specWellKnownTable.length = 14 ∧
      (∀ k l : String, MakeWellKnownBgpCommunities.get k = some l ↔
        ∃ v : Nat, (v, l) ∈ specWellKnownTable ∧ k = specSeedKey v) ∧
      MakeWellKnownBgpCommunities.get "65535:1048321" = some "no export" := by
  refine ⟨rfl, rfl, ?_, by decide⟩
  have hentries : MakeWellKnownBgpCommunities.entries =
      specWellKnownTable.map (fun row => (specSeedKey row.1, row.2)) := by decide
  intro k l
  constructor
  · intro h
    have hmem := mem_of_mapGet _ k l h
    rw [hentries, List.mem_map] at hmem
    obtain ⟨⟨v, l'⟩, hrow, heq⟩ := hmem
    simp only [Prod.mk.injEq] at heq
    refine ⟨v, ?_, heq.1.symm⟩
    rw [← heq.2]
    exact hrow
  · rintro ⟨v, hrow, rfl⟩
    apply mapGet_of_mem _ _ _ MakeWellKnownBgpCommunities.nodup
    rw [hentries, List.mem_map]
    exact ⟨(v, l), hrow, rfl⟩

/-- Claim C14 at the row `666 blackhole` of the specified table. -/
theorem flat_seed_is_spec_table_witness :
    (666, "blackhole") ∈ specWellKnownTable ∧
      MakeWellKnownBgpCommunities.get (specSeedKey 666) = some "blackhole" :=
  ⟨by decide,
    (flat_seed_is_spec_table.2.2.1 (specSeedKey 666) "blackhole").mpr
      ⟨666, by decide, rfl⟩⟩

/-- Claim C15 on the code: the value field of the seeded key is the low 16 bits
of the header constant for the first ten labels, and is not for `no export`,
`no advertise`, `no export subconfed` and `nopeer`.  The key of `no export`
is `65535:1048321`, while the low 16 bits of `0xFFFFFF01` are `65281`, and
`65535:65281` is not a key of the seed. -/
theorem seeded_value_not_low16 :
    headerConstants.filter (fun row => !valueIsLow16 row) =
        [(0xFFFFFF01, "no export"), (0xFFFFFF02, "no advertise"),
         (0xFFFFFF03, "no export subconfed"), (0xFFFFFF04, "nopeer")] ∧
      keyOfLabel MakeWellKnownBgpCommunities "no export" = some "65535:1048321" ∧
      valueField "65535:1048321" = some 1048321 ∧
      0xFFFFFF01 % 2 ^ 16 = 65281 ∧
      MakeWellKnownBgpCommunities.get "65535:65281" = none ∧
      Lookup NgMakeWellKnownBgpCommunities "65535:65281" = ("", some errNotFound) := by
  refine ⟨by decide, by decide, by decide, by decide, by decide, by decide⟩

/-- Claim C16: no malformed-path error.  `Lookup("")` is the lookup of the
single empty segment at the root: it returns a label exactly when the node at
the top-level key `""`, or failing that key the node at the top-level key `*`,
is that label.  For every string `Lookup` returns either a label with no
error or the empty label with `community not found`.  On the seeded registry
`Lookup("")` and `Lookup("65535")` return `community not found`. -/
theorem Lookup_no_other_error (r : NgBgpCommunities) :
    Split "" = [""] ∧
      (∀ l : String, Lookup r "" = (l, none) ↔
        (mapGet r "" = some (Dyn.str l) ∨
          (mapGet r "" = none ∧ mapGet r "*" = some (Dyn.str l)))) ∧
      (∀ c : String, (∃ l : String, Lookup r c = (l, none)) ∨
        Lookup r c = ("", some errNotFound)) ∧
      Lookup NgMakeWellKnownBgpCommunities "" = ("", some errNotFound) ∧
      Lookup NgMakeWellKnownBgpCommunities "65535" = ("", some errNotFound) := by
  refine ⟨by decide, ?_, ?_, by decide, by decide⟩
  · intro l
    have hsplit : Split "" = [""] := by decide
    simp only [Lookup, hsplit, lookupLoop]
    cases hk : mapGet r "" with
    | some n =>
      cases n <;> simp [lookupResult]
    | none =>
      cases hw : mapGet r "*" with
      | some n => cases n <;> simp [lookupResult]
      | none => simp [lookupResult]
  · intro c
    simp only [Lookup]
    cases lookupLoop (Dyn.ng r) (Split c) with
    | str l => exact Or.inl ⟨l, rfl⟩
    | ng reg => exact Or.inr rfl
    | other => exact Or.inr rfl

/-- Claim C16 in a registry whose only top-level key is `*`, mapped to a
label: the empty string resolves through `*`. -/
theorem Lookup_no_other_error_witness :
    Lookup [("*", Dyn.str "any")] "" = ("any", none) :=
  ((Lookup_no_other_error [("*", Dyn.str "any")]).2.1 "any").mpr (Or.inr ⟨rfl, rfl⟩)

/-- Claim C17: the source's `Set` performs no insertion.  The receiver holds
after the call what it held before, the values at its `return` are those of
`Lookup` of the same path, and every `Lookup` after the call returns what it
returned before. -/
theorem Set_writes_nothing (r : NgBgpCommunities) (p l : String) :
    (Set r p l).registry = r ∧
      (Set r p l).returned = Lookup r p ∧
      ∀ q : String, Lookup (Set r p l).registry q = Lookup r q :=
  ⟨rfl, rfl, fun _ => rfl⟩

/-- Claim C19: `Merge` is associative on flat registries.  The two ways of
merging three registries read the same at every key, and have the same
keys. -/
theorem Merge_assoc (a b c : BgpCommunities) (k : String) :
    (Merge (Merge a b) c).get k = (Merge a (Merge b c)).get k ∧
      (k ∈ mapKeys (Merge (Merge a b) c).entries ↔
        k ∈ mapKeys (Merge a (Merge b c)).entries) := by
  have hget : (Merge (Merge a b) c).get k = (Merge a (Merge b c)).get k := by
    rw [get_Merge, get_Merge, get_Merge, get_Merge]
    cases c.get k <;> cases b.get k <;> rfl
  refine ⟨hget, ?_⟩
  rw [mem_mapKeys_iff, mem_mapKeys_iff]
  simp only [BgpCommunities.get] at hget
  rw [hget]

end AliceLg
